import Mathlib

set_option autoImplicit false

namespace FasterOutlines

/-!
Shallow embedding of the `faster_outlines` Python package
(`faster_outlines/fsm/regex.py`, `guide.py`, `utils.py`) together with
spec-modelled definitions for the parts implemented in the Rust extension
(`fsm_utils`: the token-index builder and `TokenVocabulary`).

Python dictionaries are modelled as association lists with unique keys;
`alookup` is `dict.get`, returning the value of the first matching key.
-/

/-- Model of Python `dict.get`: first entry whose key matches, if any. -/
def alookup {α β : Type} [DecidableEq α] (k : α) : List (α × β) → Option β
  | [] => none
  | p :: rest => if p.1 = k then some p.2 else alookup k rest

/-- The key list of an association list (Python `dict.keys()` insertion order). -/
def keysOf {α β : Type} (l : List (α × β)) : List α :=
  l.map Prod.fst

/-! ## `regex.py`: `BetterAlphabet`

`interegular` alphabets map characters, plus the distinguished
`anything_else` sentinel, to dense symbol ids. -/

/-- A key of the interegular symbol mapping: a character or the `anything_else` sentinel. -/
inductive AlphaKey where
  | char (c : Char)
  | anythingElse
deriving DecidableEq

/-- `BetterAlphabet` after a successful `__init__`: the raw symbol mapping plus the
cached `anything_value`. -/
structure BetterAlphabet where
  symbol_mapping : List (AlphaKey × Nat)
  anything_value : Nat
deriving DecidableEq

/-- `BetterAlphabet.__init__` (regex.py lines 18-21): `assert anything_else in
self._symbol_mapping`, then cache `self.anything_value = self._symbol_mapping[anything_else]`.
`none` models the `AssertionError` raised when the sentinel is absent. -/
def BetterAlphabet.mkChecked (mapping : List (AlphaKey × Nat)) : Option BetterAlphabet :=
  match alookup AlphaKey.anythingElse mapping with
  | some v => some { symbol_mapping := mapping, anything_value := v }
  | none => none

/-- `BetterAlphabet.__getitem__` (regex.py lines 23-24):
`self._symbol_mapping.get(item, self.anything_value)`. -/
def BetterAlphabet.getItem (a : BetterAlphabet) (item : AlphaKey) : Nat :=
  (alookup item a.symbol_mapping).getD a.anything_value

/-! ## `regex.py`: `BetterFSM.flat_transition_map`

`BetterFSM.__init__` (regex.py lines 39-44) flattens the nested interegular
transition map `self.map : state -> (symbol -> state)` into a dict keyed by
`(from_state, symbol)`. -/

/-- The flattening loop of `BetterFSM.__init__`: for each `(from_state, trans_map)` of the
nested map in order, for each `(trans_key, to_state)` insert
`(from_state, trans_key) -> to_state`. -/
def flat_transition_map : List (Int × List (Nat × Int)) → List ((Int × Nat) × Int)
  | [] => []
  | (q, tm) :: rest => tm.map (fun t => ((q, t.1), t.2)) ++ flat_transition_map rest

/-- Interegular FSM as handed to `fsm_to_betterfsm` (regex.py lines 79-87).
Modelled from the spec: `interegular` is an external collaborator (the regex-to-DFA
compiler); per §3 of the spec every DFA descriptor carries a distinguished
`anything_else` symbol, so its alphabet always maps the `anything_else` sentinel
(field `anything_mem`). -/
structure InteregularFSM where
  alphabet_mapping : List (AlphaKey × Nat)
  finals : List Int
  fsmMap : List (Int × List (Nat × Int))
  anything_mem : AlphaKey.anythingElse ∈ keysOf alphabet_mapping

/-- The parts of a constructed `BetterFSM` that the claims mention. -/
structure BetterFSMData where
  alphabet : BetterAlphabet
  initial : Int
  finals : List Int
  flatMap : List ((Int × Nat) × Int)

/-- `fsm_to_betterfsm` (regex.py lines 79-87): wraps the interegular alphabet in
`BetterAlphabet` (raising if `anything_else` is absent), sets `initial := 0`, keeps
the finals, and flattens the transition map. -/
def fsm_to_betterfsm (fsm : InteregularFSM) : Option BetterFSMData :=
  match BetterAlphabet.mkChecked fsm.alphabet_mapping with
  | some alpha =>
      some { alphabet := alpha
             initial := 0
             finals := fsm.finals
             flatMap := flat_transition_map fsm.fsmMap }
  | none => none

/-! ## Spec-modelled Rust `fsm_utils.TokenVocabulary` -/

/-- Modelled from the spec: `TokenVocabulary` is implemented in the Rust extension
`fsm_utils`, which is not among the Python sources. Per §3/§4.A it is the immutable
bundle of decoded-string → token-id buckets plus the EOS id. -/
structure TokenVocabulary where
  tokens : List (String × List Nat)
  eos_token_id : Nat
deriving DecidableEq

/-- `TokenVocabulary.len()`: the number of indexed tokens (sum of the bucket sizes). -/
def TokenVocabulary.len (v : TokenVocabulary) : Nat :=
  (v.tokens.map (fun b => b.2.length)).sum

/-- Python `vocabulary.setdefault(token_str, []).append(token_idx)`: append `i` to the
bucket keyed `s`; on first insertion the new bucket goes to the end (dict insertion
order). -/
def bucketAdd (m : List (String × List Nat)) (s : String) (i : Nat) :
    List (String × List Nat) :=
  if (alookup s m).isSome then
    m.map (fun b => if b.1 = s then (b.1, b.2 ++ [i]) else b)
  else
    m ++ [(s, [i])]

/-- The raw (decoded string, token id) pairs of the buckets, bucket by bucket. -/
def flattenPairs : List (String × List Nat) → List (String × Nat)
  | [] => []
  | b :: rest => b.2.map (fun i => (b.1, i)) ++ flattenPairs rest

/-- Modelled from the spec (§4.A, §6): serialising the vocabulary emits the raw
(decoded string, token id) pairs plus the EOS id as the opaque blob. -/
def TokenVocabulary.serialize (v : TokenVocabulary) : List (String × Nat) × Nat :=
  (flattenPairs v.tokens, v.eos_token_id)

/-- Modelled from the spec (§4.A step 3): deserialisation re-bucketises the raw pairs
in order and restores the EOS id. -/
def TokenVocabulary.deserialize (blob : List (String × Nat) × Nat) : TokenVocabulary :=
  { tokens := blob.1.foldl (fun m p => bucketAdd m p.1 p.2) []
    eos_token_id := blob.2 }

/-- Modelled from the spec (§4.A): the stable digest used for cache fingerprinting is a
deterministic function of the raw vocabulary content. -/
def TokenVocabulary.digest (v : TokenVocabulary) : List (String × Nat) × Nat :=
  (flattenPairs v.tokens, v.eos_token_id)

/-- Modelled from the spec (§4.F): the cache fingerprint pairs the regex source with the
vocabulary digest. -/
def fingerprint (regex : String) (v : TokenVocabulary) :
    String × (List (String × Nat) × Nat) :=
  (regex, v.digest)

/-! ## `utils.py`: `reduced_vocabulary` -/

/-- The duck-typed tokenizer consumed by `reduced_vocabulary` (utils.py lines 18-35):
a token → id dict, the special-token set, and the decoding function. -/
structure Tokenizer where
  vocabulary : List (String × Nat)
  special_tokens : List String
  convert_token_to_string : String → String

/-- One iteration of the `reduced_vocabulary` loop body (utils.py lines 23-33). -/
def reduced_step (t : Tokenizer) (acc : List (String × List Nat) × List Nat)
    (p : String × Nat) : List (String × List Nat) × List Nat :=
  if p.1 ∈ t.special_tokens then acc
  else if t.convert_token_to_string p.1 = "" then (acc.1, acc.2 ++ [p.2])
  else (bucketAdd acc.1 (t.convert_token_to_string p.1) p.2, acc.2)

/-- `reduced_vocabulary` (utils.py lines 18-35): bucketise non-special tokens by decoded
string; tokens decoding to the empty string go to `empty_token_ids` instead. -/
def reduced_vocabulary (t : Tokenizer) : List (String × List Nat) × List Nat :=
  t.vocabulary.foldl (reduced_step t) ([], [])

/-- Token id `i` sits in the bucket keyed `s`. -/
def inBucket (m : List (String × List Nat)) (s : String) (i : Nat) : Prop :=
  ∃ ids, alookup s m = some ids ∧ i ∈ ids

/-! ## Spec-modelled Rust index builder (`create_fsm_index_end_to_end_rs`) -/

/-- The DFA descriptor handed to the Rust builder: the `FSMInfo` kwargs assembled in
`BetterFSM.fsm_info` (regex.py lines 51-68) plus the DFA state list. -/
structure FSMInfo where
  initial : Int
  finals : List Int
  transitions : List ((Int × Nat) × Int)
  alphabet_symbol_mapping : List (Char × Nat)
  alphabet_anything_value : Nat
  states : List Int

/-- §4.C symbol resolution: `symbol_of_char[c]`, falling back to the anything-else
symbol when the character is not explicitly classed. -/
def resolveSymbol (info : FSMInfo) (c : Char) : Nat :=
  (alookup c info.alphabet_symbol_mapping).getD info.alphabet_anything_value

/-- Modelled from the spec (§4.C): the pure token-DFA walker of the Rust builder. Walks
the decoded characters through the flat transition table; a missing transition rejects. -/
def walkToken (info : FSMInfo) : Int → List Char → Option Int
  | q, [] => some q
  | q, c :: cs =>
    match alookup (q, resolveSymbol info c) info.transitions with
    | some q2 => walkToken info q2 cs
    | none => none

/-- Modelled from the spec (§4.D step 2b): the token map of one state — every bucket the
walker accepts contributes an edge for each equivalent token id; a final state
additionally maps `eos_token_id → -1`. -/
def stateTokenMap (info : FSMInfo) (vocab : TokenVocabulary) (q : Int) :
    List (Nat × Int) :=
  (vocab.tokens.foldr (fun b acc =>
      match walkToken info q b.1.data with
      | some q2 => b.2.map (fun t => (t, q2)) ++ acc
      | none => acc) [])
    ++ (if q ∈ info.finals then [(vocab.eos_token_id, -1)] else [])

/-- The target states appearing in one published BFS layer. -/
def layerTargets (layer : List (Int × List (Nat × Int))) : List Int :=
  layer.foldr (fun p acc => p.2.map Prod.snd ++ acc) []

/-- Modelled from the spec (§4.D): fuelled BFS over reachable DFA states; each layer
publishes the token map of its states and discovers the unseen targets. -/
def bfsBuild (info : FSMInfo) (vocab : TokenVocabulary) :
    Nat → List Int → List Int → List (Int × List (Nat × Int))
  | 0, _, _ => []
  | Nat.succ fuel, seen, frontier =>
    match frontier with
    | [] => []
    | _ =>
      let layer := frontier.map (fun q => (q, stateTokenMap info vocab q))
      let discovered := ((layerTargets layer).filter
          (fun q2 => q2 != -1 && !(seen.contains q2))).dedup
      layer ++ bfsBuild info vocab fuel (seen ++ discovered) discovered

/-- Modelled from the spec (§4.D): the full token index published by the Rust builder,
state → (token id → next state). The fuel exceeds any possible BFS depth. -/
def buildTokenIndex (info : FSMInfo) (vocab : TokenVocabulary) :
    List (Int × List (Nat × Int)) :=
  bfsBuild info vocab (info.transitions.length + 1) [info.initial] [info.initial]

/-! ## `guide.py`: the guides

`states_to_token_maps` below stands for the fully published index: the model collapses
`_fetch_states`, so a lookup that would block until a state is published sees that
state's completed map. -/

/-- The two reply shapes of `get_next_instruction` (guide.py lines 13-38). -/
inductive Instruction where
  | write (tokens : List Nat)
  | generate (tokens : List Nat)
deriving DecidableEq

/-- The mask dict maintained by `_fetch_states` (guide.py lines 200-204): per state, the
list of keys of its token map. -/
def fetchMasks (m : List (Int × List (Nat × Int))) : List (Int × List Nat) :=
  m.map (fun p => (p.1, p.2.map Prod.fst))

/-- The queryable fields of `LazyVLLMRegexGuide` (guide.py lines 133-147). -/
structure LazyGuide where
  eos_token_id : Nat
  final_states : List Int
  states : List Int
  states_to_token_maps : List (Int × List (Nat × Int))
  states_to_token_masks : List (Int × List Nat)

/-- The `LazyVLLMRegexGuide` field values determined by a DFA descriptor and a
vocabulary: finals of the DFA plus the `-1` sentinel, the DFA state list, and the
published token index with its masks. -/
def mkLazyGuide (info : FSMInfo) (vocab : TokenVocabulary) : LazyGuide :=
  let maps := buildTokenIndex info vocab
  { eos_token_id := vocab.eos_token_id
    final_states := info.finals ++ [-1]
    states := info.states
    states_to_token_maps := maps
    states_to_token_masks := fetchMasks maps }

/-- `LazyVLLMRegexGuide.get_next_state` (guide.py lines 170-194). -/
def LazyGuide.get_next_state (g : LazyGuide) (state : Int) (token_id : Nat) :
    Except String Int :=
  if state ∈ g.final_states then .ok (-1)
  else if token_id = g.eos_token_id ∨ state ∉ g.states then .ok (-1)
  else
    match alookup state g.states_to_token_maps with
    | none => .error "RuntimeError: Failed to fetch state map"
    | some state_map =>
      match alookup token_id state_map with
      | none => .ok (-1)
      | some next_state => .ok next_state

/-- `LazyVLLMRegexGuide.get_next_instruction` (guide.py lines 149-168). -/
def LazyGuide.get_next_instruction (g : LazyGuide) (state : Int) : Instruction :=
  if state ∈ g.final_states then .write [g.eos_token_id]
  else
    match alookup state g.states_to_token_masks with
    | none => .write [g.eos_token_id]
    | some mask => .generate mask

/-- The fields of `VLLMRegexGuide` (guide.py lines 262-274). -/
structure VLLMGuide where
  eos_token_id : Nat
  final_states : List Int
  states_to_token_maps : List (Int × List (Nat × Int))
  states_to_token_masks : List (Int × List Nat)

/-- `VLLMRegexGuide.get_next_state` (guide.py lines 288-300); the bare subscript
`self.states_to_token_maps[state]` raises `KeyError` when the state is absent. -/
def VLLMGuide.get_next_state (g : VLLMGuide) (state : Int) (token_id : Nat) :
    Except String Int :=
  if token_id = g.eos_token_id ∨ state ∈ g.final_states then .ok (-1)
  else
    match alookup state g.states_to_token_maps with
    | none => .error "KeyError"
    | some state_map => .ok ((alookup token_id state_map).getD (-1))

/-- The fields of `RegexGuide` that its `get_next_state` reads. -/
structure RegexGuideData where
  eos_token_id : Nat
  final_states : List Int
  states : List Int

/-- The `states_to_token_maps` property of `RegexGuide` (guide.py lines 53-55): its body
evaluates `self.fsm.get_states_to_token_subsets()` but has no return statement, so the
property evaluates to Python `None`. -/
def RegexGuideData.states_to_token_maps_property (_ : RegexGuideData) :
    Option (List (Int × List (Nat × Int))) :=
  none

/-- `RegexGuide.get_next_state` (guide.py lines 69-85): subscripting the property value
with `[state]` raises `TypeError` because the property evaluates to `None`. The `some`
branch models what the remaining lines would do on a dict-valued property. -/
def RegexGuideData.get_next_state (g : RegexGuideData) (state : Int) (token_id : Nat) :
    Except String Int :=
  if token_id = g.eos_token_id ∨ state ∉ g.states then .ok (-1)
  else
    match g.states_to_token_maps_property with
    | none => .error "TypeError: NoneType object is not subscriptable"
    | some maps =>
      match alookup state maps with
      | none => .error "KeyError"
      | some state_map => .ok ((alookup token_id state_map).getD (-1))

/-! ## Python call-boundary values and tuple unpacking -/

/-- Python values crossing the `create_fsm_index_*` call boundary: the opaque Rust lazy
index handle, a finals set, and tuples. -/
inductive PyVal where
  | indexHandle (m : List (Int × List (Nat × Int)))
  | finalsSet (s : List Int)
  | tupleV (items : List PyVal)

/-- Iterability for tuple unpacking. Modelled from the spec (§4.E): the lazy index
handle is an opaque extension object, not a tuple, so it does not unpack. -/
def pyIter : PyVal → Option (List PyVal)
  | PyVal.tupleV items => some items
  | _ => none

/-- Python `a, b, c = v`. -/
def pyUnpack3 (v : PyVal) : Except String (PyVal × PyVal × PyVal) :=
  match pyIter v with
  | none => .error "TypeError: cannot unpack non-iterable object"
  | some [a, b, c] => .ok (a, b, c)
  | some items =>
    if items.length < 3 then .error "ValueError: not enough values to unpack"
    else .error "ValueError: too many values to unpack"

/-- Python `a, b = v`. -/
def pyUnpack2 (v : PyVal) : Except String (PyVal × PyVal) :=
  match pyIter v with
  | none => .error "TypeError: cannot unpack non-iterable object"
  | some [a, b] => .ok (a, b)
  | some items =>
    if items.length < 2 then .error "ValueError: not enough values to unpack"
    else .error "ValueError: too many values to unpack"

/-- `create_fsm_index_end_to_end` (regex.py lines 94-106): builds the lazy index over
the compiled DFA and returns the Python pair `(lazy_fsm_index, finals)`. The
regex-to-DFA step is the external compiler, so the model takes the DFA descriptor. -/
def create_fsm_index_end_to_end (info : FSMInfo) (vocab : TokenVocabulary) : PyVal :=
  PyVal.tupleV
    [PyVal.indexHandle (buildTokenIndex info vocab), PyVal.finalsSet info.finals]

/-- `create_fsm_index_tokenizer` (regex.py lines 109-117): returns the single lazy
index handle, not a tuple. -/
def create_fsm_index_tokenizer (info : FSMInfo) (vocab : TokenVocabulary) : PyVal :=
  PyVal.indexHandle (buildTokenIndex info vocab)

/-- `RegexGuide.__init__` (guide.py lines 43-51): destructures the result of
`create_fsm_index_end_to_end` into the three targets
`(self.fsm, fsm_finals, self.states)`; on success it would go on to fill the instance
fields (and would then hit the setterless `states_to_token_maps` property at line 51). -/
def RegexGuide.init (info : FSMInfo) (vocab : TokenVocabulary) :
    Except String (PyVal × PyVal × PyVal) :=
  pyUnpack3 (create_fsm_index_end_to_end info vocab)

/-! ## `guide.py`: `LazyVLLMRegexGuide` pickling -/

/-- The full instance dict of `LazyVLLMRegexGuide` (guide.py lines 133-147) as pickling
sees it. `tokenizer` is optional to model Python truthiness in `__setstate__`. -/
structure LazyGuideFull where
  regex_string : String
  tokenizer : Option TokenVocabulary
  eos_token_id : Nat
  final_states : List Int
  states : List Int
  states_to_token_maps : List (Int × List (Nat × Int))
  states_to_token_masks : Option (List (Int × List Nat))
  fsm : Option PyVal
  base_fsm : FSMInfo

/-- `LazyVLLMRegexGuide.__getstate__` (guide.py lines 222-228): copy the instance dict
and set `fsm` to `None`. -/
def LazyGuideFull.getstate (g : LazyGuideFull) : LazyGuideFull :=
  { g with fsm := none }

/-- `LazyVLLMRegexGuide.__setstate__` (guide.py lines 230-242): restore the dict, then,
when the regex string and the tokenizer are truthy, rebuild the index by unpacking
`(self.fsm, self.empty_token_ids) = create_fsm_index_tokenizer(self.base_fsm,
self.tokenizer)`; afterwards it would reset the mask dict and fetch state 1. -/
def LazyGuideFull.setstate (st : LazyGuideFull) : Except String LazyGuideFull :=
  match st.tokenizer with
  | none => .ok st
  | some vocab =>
    if st.regex_string = "" then .ok st
    else
      match pyUnpack2 (create_fsm_index_tokenizer st.base_fsm vocab) with
      | Except.ok fe =>
          .ok { st with fsm := some fe.1, states_to_token_masks := some [] }
      | Except.error msg => .error msg

/-! ## Concrete instances (the DFA of the regex `a+` over a one-token vocabulary) -/

/-- DFA descriptor of the regex `a+`: state 0 initial, state 1 final and looping on
the symbol class of the character `a`. -/
def infoAplus : FSMInfo :=
  { initial := 0
    finals := [1]
    transitions := [((0, 0), 1), ((1, 0), 1)]
    alphabet_symbol_mapping := [('a', 0)]
    alphabet_anything_value := 1
    states := [0, 1] }

/-- One-token vocabulary: the decoded string `a` is token id 1; EOS is 0. -/
def vocabA : TokenVocabulary :=
  { tokens := [("a", [1])], eos_token_id := 0 }

/-- A `RegexGuide` instance state over the `a+` DFA. -/
def regexGuideEx : RegexGuideData :=
  { eos_token_id := 0, final_states := [1, -1], states := [0, 1] }

/-- A `VLLMRegexGuide` instance whose index has the single state 0. -/
def vllmGuideEx : VLLMGuide :=
  { eos_token_id := 0
    final_states := [1, -1]
    states_to_token_maps := [(0, [(1, 1)])]
    states_to_token_masks := [(0, [1])] }

/-- A pickled `LazyVLLMRegexGuide` instance dict over the `a+` build. -/
def lazyFullEx : LazyGuideFull :=
  { regex_string := "a+"
    tokenizer := some vocabA
    eos_token_id := 0
    final_states := [1, -1]
    states := [0, 1]
    states_to_token_maps := []
    states_to_token_masks := none
    fsm := none
    base_fsm := infoAplus }

/-- An example tokenizer for `reduced_vocabulary`: one ordinary token, one special
token, one token decoding to the empty string. -/
def tokEx : Tokenizer :=
  { vocabulary := [("a", 1), ("<eos>", 2), ("", 3)]
    special_tokens := ["<eos>"]
    convert_token_to_string := fun s => s }

/-- Claim C1 as stated: for every guide built from a DFA descriptor and a vocabulary,
every final DFA state `q` and every non-EOS token id `t` that the published token index
maps from `q` to some state, `get_next_state` returns that state. -/
def C1ClaimStatement : Prop :=
  ∀ (info : FSMInfo) (vocab : TokenVocabulary) (q : Int) (t : Nat) (q2 : Int)
    (m : List (Nat × Int)),
    q ∈ (mkLazyGuide info vocab).final_states → q ≠ -1 →
    t ≠ (mkLazyGuide info vocab).eos_token_id →
    alookup q (mkLazyGuide info vocab).states_to_token_maps = some m →
    alookup t m = some q2 →
    (mkLazyGuide info vocab).get_next_state q t = Except.ok q2

/-! ## Association-list lemmas -/

@[simp]
theorem alookup_nil {α β : Type} [DecidableEq α] (k : α) :
    alookup k ([] : List (α × β)) = none := rfl

@[simp]
theorem alookup_cons {α β : Type} [DecidableEq α] (k : α) (p : α × β) (rest : List (α × β)) :
    alookup k (p :: rest) = if p.1 = k then some p.2 else alookup k rest := rfl

theorem alookup_append {α β : Type} [DecidableEq α] (k : α) (l₁ l₂ : List (α × β)) :
    alookup k (l₁ ++ l₂) =
      match alookup k l₁ with
      | some v => some v
      | none => alookup k l₂ := by
  induction l₁ with
  | nil => simp
  | cons p rest ih =>
    by_cases h : p.1 = k <;> simp [h, ih]

theorem alookup_isSome_iff_mem_keys {α β : Type} [DecidableEq α] (k : α) (l : List (α × β)) :
    (alookup k l).isSome ↔ k ∈ keysOf l := by
  induction l with
  | nil => simp [keysOf]
  | cons p rest ih =>
    by_cases h : p.1 = k
    · simp [keysOf, h]
    · simp only [alookup_cons, h, if_false, keysOf, List.map_cons, List.mem_cons, ih, keysOf]
      constructor
      · intro hm
        exact Or.inr hm
      · rintro (hm | hm)
        · exact absurd hm.symm h
        · exact hm

theorem alookup_eq_none_iff_not_mem_keys {α β : Type} [DecidableEq α] (k : α)
    (l : List (α × β)) : alookup k l = none ↔ k ∉ keysOf l := by
  rw [← alookup_isSome_iff_mem_keys]
  cases alookup k l <;> simp

theorem alookup_mem {α β : Type} [DecidableEq α] {k : α} {v : β} {l : List (α × β)}
    (h : alookup k l = some v) : (k, v) ∈ l := by
  induction l with
  | nil => simp at h
  | cons p rest ih =>
    by_cases hk : p.1 = k
    · simp only [alookup_cons, hk, if_true, Option.some.injEq] at h
      cases p with
      | mk a b =>
        simp only at hk h
        subst hk
        subst h
        exact List.mem_cons_self _ _
    · simp only [alookup_cons, hk, if_false] at h
      exact List.mem_cons_of_mem _ (ih h)

@[simp]
theorem keysOf_nil {α β : Type} : keysOf ([] : List (α × β)) = [] := rfl

@[simp]
theorem keysOf_cons {α β : Type} (p : α × β) (l : List (α × β)) :
    keysOf (p :: l) = p.1 :: keysOf l := rfl

theorem keysOf_append {α β : Type} (l₁ l₂ : List (α × β)) :
    keysOf (l₁ ++ l₂) = keysOf l₁ ++ keysOf l₂ := by
  simp [keysOf]

/-! ## C7: `BetterAlphabet.__getitem__` is total -/

/-- C7: resolving any key through `BetterAlphabet.__getitem__` is total: it returns the
explicitly mapped symbol id when the key is in the symbol mapping and the cached
anything-else value otherwise, and it never fails. -/
theorem c7_alphabet_getitem_total (a : BetterAlphabet) (item : AlphaKey) :
    (∀ v, alookup item a.symbol_mapping = some v → a.getItem item = v) ∧
    (alookup item a.symbol_mapping = none → a.getItem item = a.anything_value) := by
  constructor
  · intro v hv
    simp [BetterAlphabet.getItem, hv]
  · intro hv
    simp [BetterAlphabet.getItem, hv]

/-- Witness for C7 at the singleton mapping sending the character `a` to symbol 0. -/
theorem c7_alphabet_getitem_total_witness :
    alookup (AlphaKey.char 'a')
        (BetterAlphabet.mk [(AlphaKey.char 'a', 0)] 7).symbol_mapping = some 0 ∧
    (BetterAlphabet.mk [(AlphaKey.char 'a', 0)] 7).getItem (AlphaKey.char 'a') = 0 :=
  ⟨by decide,
   (c7_alphabet_getitem_total (BetterAlphabet.mk [(AlphaKey.char 'a', 0)] 7)
      (AlphaKey.char 'a')).1 0 (by decide)⟩

/-! ## C10: the `BetterAlphabet.__init__` assertion -/

/-- C10: constructing a `BetterAlphabet` succeeds exactly when the symbol mapping
contains the anything-else sentinel, in which case `anything_value` is its symbol id;
and every alphabet reaching it through `fsm_to_betterfsm` (whose interegular input
always maps the sentinel) satisfies the precondition, so the assertion never fires
there. -/
theorem c10_alphabet_init_assert :
    (∀ mapping : List (AlphaKey × Nat),
        (BetterAlphabet.mkChecked mapping).isSome ↔ AlphaKey.anythingElse ∈ keysOf mapping)
    ∧ (∀ (mapping : List (AlphaKey × Nat)) (a : BetterAlphabet),
        BetterAlphabet.mkChecked mapping = some a →
        alookup AlphaKey.anythingElse mapping = some a.anything_value ∧
          a.symbol_mapping = mapping)
    ∧ (∀ fsm : InteregularFSM, (fsm_to_betterfsm fsm).isSome) := by
  refine ⟨?_, ?_, ?_⟩
  · intro mapping
    rw [← alookup_isSome_iff_mem_keys]
    unfold BetterAlphabet.mkChecked
    cases alookup AlphaKey.anythingElse mapping <;> simp
  · intro mapping a h
    unfold BetterAlphabet.mkChecked at h
    cases hm : alookup AlphaKey.anythingElse mapping with
    | none => rw [hm] at h; simp at h
    | some v =>
      rw [hm] at h
      simp only [Option.some.injEq] at h
      subst h
      exact ⟨rfl, rfl⟩
  · intro fsm
    unfold fsm_to_betterfsm
    cases hm : BetterAlphabet.mkChecked fsm.alphabet_mapping with
    | none =>
      exfalso
      have hs : (BetterAlphabet.mkChecked fsm.alphabet_mapping).isSome := by
        unfold BetterAlphabet.mkChecked
        have := fsm.anything_mem
        rw [← alookup_isSome_iff_mem_keys] at this
        cases h2 : alookup AlphaKey.anythingElse fsm.alphabet_mapping with
        | none => rw [h2] at this; simp at this
        | some v => simp
      rw [hm] at hs
      simp at hs
    | some a => simp

/-- Witness for C10 at the singleton mapping of the sentinel and at a concrete
interegular FSM. -/
theorem c10_alphabet_init_assert_witness :
    ((BetterAlphabet.mkChecked [(AlphaKey.anythingElse, 4)]).isSome ↔
        AlphaKey.anythingElse ∈ keysOf [(AlphaKey.anythingElse, 4)]) ∧
    (fsm_to_betterfsm
        { alphabet_mapping := [(AlphaKey.anythingElse, 4)]
          finals := [0]
          fsmMap := []
          anything_mem := by decide }).isSome :=
  ⟨c10_alphabet_init_assert.1 [(AlphaKey.anythingElse, 4)],
   c10_alphabet_init_assert.2.2
     { alphabet_mapping := [(AlphaKey.anythingElse, 4)]
       finals := [0]
       fsmMap := []
       anything_mem := by decide }⟩

/-! ## C8: the flat transition map refines the nested map -/

theorem alookup_block_same (q : Int) (a : Nat) (tm : List (Nat × Int)) :
    alookup (q, a) (tm.map (fun t => ((q, t.1), t.2))) = alookup a tm := by
  induction tm with
  | nil => simp
  | cons t rest ih =>
    by_cases h : t.1 = a
    · simp [h]
    · have hpair : ¬ ((q, t.1) = (q, a)) := by
        intro hc
        exact h (congrArg Prod.snd hc)
      simp [h, hpair, ih]

theorem alookup_block_other {q q1 : Int} (h : q1 ≠ q) (a : Nat) (tm : List (Nat × Int)) :
    alookup (q, a) (tm.map (fun t => ((q1, t.1), t.2))) = none := by
  induction tm with
  | nil => simp
  | cons t rest ih =>
    have hpair : ¬ ((q1, t.1) = (q, a)) := by
      intro hc
      exact h (congrArg Prod.fst hc)
    simp [hpair, ih]

theorem alookup_flat_not_mem {q : Int} {fsmMap : List (Int × List (Nat × Int))}
    (h : q ∉ keysOf fsmMap) (a : Nat) :
    alookup (q, a) (flat_transition_map fsmMap) = none := by
  induction fsmMap with
  | nil => simp [flat_transition_map]
  | cons b rest ih =>
    have hq1 : b.1 ≠ q := by
      intro hc
      exact h (by simp [keysOf, hc])
    have hrest : q ∉ keysOf rest := by
      intro hc
      exact h (by simp [keysOf] at hc ⊢; exact Or.inr hc)
    cases b with
    | mk q1 tm =>
      show alookup (q, a) (tm.map (fun t => ((q1, t.1), t.2)) ++ flat_transition_map rest) = none
      rw [alookup_append, alookup_block_other hq1]
      exact ih hrest

/-- C8: the flat transition table of `BetterFSM.__init__` is equivalent to the nested
interegular map: `(from_state, symbol) ↦ to_state` is in the flat map iff the nested
map sends `from_state`, `symbol` to `to_state`; absence on either side coincides. -/
theorem c8_flat_transition_map_equiv (fsmMap : List (Int × List (Nat × Int)))
    (hnd : (keysOf fsmMap).Nodup) (q : Int) (a : Nat) (tgt : Int) :
    alookup (q, a) (flat_transition_map fsmMap) = some tgt ↔
      ∃ tm, alookup q fsmMap = some tm ∧ alookup a tm = some tgt := by
  induction fsmMap with
  | nil => simp [flat_transition_map]
  | cons b rest ih =>
    cases b with
    | mk q1 tm1 =>
      have hnd1 : q1 ∉ keysOf rest := by
        simp only [keysOf_cons, List.nodup_cons] at hnd
        exact hnd.1
      have hndrest : (keysOf rest).Nodup := by
        simp only [keysOf_cons, List.nodup_cons] at hnd
        exact hnd.2
      show alookup (q, a) (tm1.map (fun t => ((q1, t.1), t.2)) ++ flat_transition_map rest)
            = some tgt ↔ _
      rw [alookup_append]
      by_cases hq : q1 = q
      · subst hq
        rw [alookup_block_same]
        cases hla : alookup a tm1 with
        | some v =>
          simp only [Option.some.injEq]
          constructor
          · intro hv
            exact ⟨tm1, by simp, by rw [hla, hv]⟩
          · rintro ⟨tm2, htm2, hv⟩
            simp only [alookup_cons, if_true, eq_self_iff_true, reduceIte,
              Option.some.injEq] at htm2
            subst htm2
            rw [hla] at hv
            exact (Option.some.inj hv)
        | none =>
          rw [alookup_flat_not_mem hnd1]
          simp only [false_iff, not_exists]
          constructor
          · intro h
            simp at h
          · intro ⟨tm2, htm2, hv⟩
            simp only [alookup_cons, if_true, eq_self_iff_true, reduceIte,
              Option.some.injEq] at htm2
            subst htm2
            rw [hla] at hv
            simp at hv
      · rw [alookup_block_other hq]
        rw [ih hndrest]
        constructor
        · rintro ⟨tm2, htm2, hv⟩
          refine ⟨tm2, ?_, hv⟩
          simp [hq, htm2]
        · rintro ⟨tm2, htm2, hv⟩
          refine ⟨tm2, ?_, hv⟩
          simp only [alookup_cons, if_neg hq] at htm2
          exact htm2

/-- Witness for C8 at a two-state nested map. -/
theorem c8_flat_transition_map_equiv_witness :
    (keysOf [((0 : Int), [((0 : Nat), (1 : Int))]), (1, [(0, 1)])]).Nodup ∧
    (alookup ((0 : Int), (0 : Nat))
        (flat_transition_map [((0 : Int), [((0 : Nat), (1 : Int))]), (1, [(0, 1)])]) =
        some 1 ↔
      ∃ tm, alookup (0 : Int) [((0 : Int), [((0 : Nat), (1 : Int))]), (1, [(0, 1)])] =
          some tm ∧ alookup (0 : Nat) tm = some 1) :=
  ⟨by decide,
   c8_flat_transition_map_equiv [((0 : Int), [((0 : Nat), (1 : Int))]), (1, [(0, 1)])]
     (by decide) 0 0 1⟩

/-! ## C5: vocabulary serialise → deserialise round trip -/

theorem map_keyfix_of_not_mem (m : List (String × List Nat)) (s : String)
    (f : List Nat → List Nat) (h : s ∉ keysOf m) :
    m.map (fun b => if b.1 = s then (b.1, f b.2) else b) = m := by
  induction m with
  | nil => rfl
  | cons b rest ih =>
    have hb : b.1 ≠ s := by
      intro hc
      exact h (by simp [keysOf, hc])
    have hrest : s ∉ keysOf rest := by
      intro hc
      exact h (by simp [keysOf] at hc ⊢; exact Or.inr hc)
    simp [hb, ih hrest]

theorem bucketAdd_of_not_mem (m : List (String × List Nat)) (s : String) (i : Nat)
    (h : s ∉ keysOf m) : bucketAdd m s i = m ++ [(s, [i])] := by
  unfold bucketAdd
  rw [((alookup_eq_none_iff_not_mem_keys s m).mpr h)]
  simp

theorem bucketAdd_append_last (m : List (String × List Nat)) (s : String)
    (acc : List Nat) (i : Nat) (h : s ∉ keysOf m) :
    bucketAdd (m ++ [(s, acc)]) s i = m ++ [(s, acc ++ [i])] := by
  unfold bucketAdd
  have hsome : (alookup s (m ++ [(s, acc)])).isSome := by
    rw [alookup_append, (alookup_eq_none_iff_not_mem_keys s m).mpr h]
    simp
  rw [if_pos hsome, List.map_append, map_keyfix_of_not_mem m s (fun b => b ++ [i]) h]
  simp

theorem foldl_bucketAdd_same_key (ids : List Nat) (m : List (String × List Nat))
    (s : String) (acc : List Nat) (h : s ∉ keysOf m) :
    (ids.map (fun i => (s, i))).foldl (fun m2 p => bucketAdd m2 p.1 p.2) (m ++ [(s, acc)])
      = m ++ [(s, acc ++ ids)] := by
  induction ids generalizing acc with
  | nil => simp
  | cons i rest ih =>
    simp only [List.map_cons, List.foldl_cons]
    rw [bucketAdd_append_last m s acc i h, ih (acc ++ [i])]
    simp

theorem foldl_bucketAdd_flattenPairs (bl : List (String × List Nat))
    (m : List (String × List Nat)) (hnd : (keysOf (m ++ bl)).Nodup)
    (hne : ∀ b ∈ bl, b.2 ≠ []) :
    (flattenPairs bl).foldl (fun m2 p => bucketAdd m2 p.1 p.2) m = m ++ bl := by
  induction bl generalizing m with
  | nil => simp [flattenPairs]
  | cons b rest ih =>
    cases b with
    | mk s ids =>
      have hsm : s ∉ keysOf m := by
        rw [keysOf_append] at hnd
        have hdisj := (List.nodup_append.mp hnd).2.2
        intro hc
        exact hdisj hc (by simp [keysOf])
      cases ids with
      | nil => exact absurd rfl (hne (s, []) (List.mem_cons_self _ _))
      | cons i ids2 =>
        have hflat : flattenPairs ((s, i :: ids2) :: rest)
            = List.map (fun j => (s, j)) (i :: ids2) ++ flattenPairs rest := rfl
        have hstep : List.foldl (fun m2 p => bucketAdd m2 p.1 p.2) m
            (List.map (fun j => (s, j)) (i :: ids2)) = m ++ [(s, i :: ids2)] := by
          rw [List.map_cons, List.foldl_cons, bucketAdd_of_not_mem m s i hsm,
            foldl_bucketAdd_same_key ids2 m s [i] hsm]
          simp
        have hnd2 : (keysOf ((m ++ [(s, i :: ids2)]) ++ rest)).Nodup := by
          rw [List.append_assoc]
          exact hnd
        have hrec := ih (m ++ [(s, i :: ids2)]) hnd2
          (fun b hb => hne b (List.mem_cons_of_mem _ hb))
        rw [hflat, List.foldl_append, hstep, hrec, List.append_assoc]
        simp

/-- C5: serialising and then deserialising a token vocabulary restores it exactly:
same buckets, hence same `len()`, same `eos_token_id`, same digest and same cache
fingerprint. Hypotheses: distinct bucket keys and non-empty buckets, the shape
`TokenVocabulary` construction guarantees. -/
theorem c5_vocab_serde_roundtrip (v : TokenVocabulary)
    (hkeys : (keysOf v.tokens).Nodup) (hne : ∀ b ∈ v.tokens, b.2 ≠ []) :
    TokenVocabulary.deserialize (TokenVocabulary.serialize v) = v
    ∧ (TokenVocabulary.deserialize (TokenVocabulary.serialize v)).len = v.len
    ∧ (TokenVocabulary.deserialize (TokenVocabulary.serialize v)).eos_token_id
        = v.eos_token_id
    ∧ (TokenVocabulary.deserialize (TokenVocabulary.serialize v)).tokens = v.tokens
    ∧ (TokenVocabulary.deserialize (TokenVocabulary.serialize v)).digest = v.digest
    ∧ ∀ r, fingerprint r (TokenVocabulary.deserialize (TokenVocabulary.serialize v))
        = fingerprint r v := by
  have hmain : TokenVocabulary.deserialize (TokenVocabulary.serialize v) = v := by
    unfold TokenVocabulary.deserialize TokenVocabulary.serialize
    have h := foldl_bucketAdd_flattenPairs v.tokens [] (by simpa using hkeys) hne
    simp only [List.nil_append] at h
    simp [h]
  exact ⟨hmain, by rw [hmain], by rw [hmain], by rw [hmain], by rw [hmain],
    fun r => by rw [hmain]⟩

/-- Witness for C5 at the one-token vocabulary. -/
theorem c5_vocab_serde_roundtrip_witness :
    (keysOf vocabA.tokens).Nodup ∧
    TokenVocabulary.deserialize (TokenVocabulary.serialize vocabA) = vocabA :=
  ⟨by decide, (c5_vocab_serde_roundtrip vocabA (by decide) (by decide)).1⟩

/-! ## C9: `reduced_vocabulary` bucket characterisation -/

theorem alookup_map_bucket (m : List (String × List Nat)) (s s0 : String) (j : Nat) :
    alookup s (m.map (fun b => if b.1 = s0 then (b.1, b.2 ++ [j]) else b)) =
      if s = s0 then (alookup s m).map (fun ids => ids ++ [j]) else alookup s m := by
  induction m with
  | nil => by_cases h : s = s0 <;> simp [h]
  | cons b rest ih =>
    simp only [List.map_cons]
    by_cases h0 : b.1 = s0
    · by_cases hs : b.1 = s
      · have hss : s = s0 := by rw [← hs, h0]
        simp [h0, hs, hss]
      · have hs0s : ¬ s0 = s := fun hc => hs (h0.trans hc)
        by_cases hss : s = s0
        · exact absurd hss.symm hs0s
        · simp [h0, hs, hss, hs0s, ih]
    · by_cases hs : b.1 = s
      · have hss : ¬ (s = s0) := fun hc => h0 (hs.trans hc)
        simp [h0, hs, hss]
      · simp only [if_neg h0, alookup_cons, if_neg hs]
        exact ih

theorem inBucket_bucketAdd (m : List (String × List Nat)) (s0 : String) (j : Nat)
    (s : String) (i : Nat) :
    inBucket (bucketAdd m s0 j) s i ↔ inBucket m s i ∨ (s = s0 ∧ i = j) := by
  have hlook : alookup s (bucketAdd m s0 j) =
      if s = s0 then
        (match alookup s0 m with
         | some ids0 => some (ids0 ++ [j])
         | none => some [j])
      else alookup s m := by
    unfold bucketAdd
    cases hm : alookup s0 m with
    | some ids0 =>
      simp only [Option.isSome_some, if_true]
      rw [alookup_map_bucket m s s0 j]
      by_cases hss : s = s0
      · rw [if_pos hss, if_pos hss, hss, hm]
        rfl
      · rw [if_neg hss, if_neg hss]
    | none =>
      simp only [Option.isSome_none, Bool.false_eq_true, if_false]
      rw [alookup_append]
      by_cases hss : s = s0
      · rw [if_pos hss, hss, hm]
        simp
      · rw [if_neg hss]
        cases hsm : alookup s m with
        | some v => rfl
        | none =>
          simp only [alookup_cons, alookup_nil]
          rw [if_neg (fun hc => hss hc.symm)]
  unfold inBucket
  rw [hlook]
  by_cases hss : s = s0
  · rw [if_pos hss]
    cases hm : alookup s0 m with
    | some ids0 =>
      constructor
      · rintro ⟨ids, hids, hi⟩
        have hd : ids0 ++ [j] = ids := Option.some.inj hids
        rw [← hd] at hi
        rcases List.mem_append.mp hi with h | h
        · exact Or.inl ⟨ids0, by rw [hss, hm], h⟩
        · exact Or.inr ⟨hss, by simpa using h⟩
      · rintro (⟨ids, hids, hi⟩ | ⟨-, hi⟩)
        · rw [hss, hm] at hids
          have hd : ids0 = ids := Option.some.inj hids
          exact ⟨ids0 ++ [j], rfl, List.mem_append.mpr (Or.inl (hd ▸ hi))⟩
        · exact ⟨ids0 ++ [j], rfl, List.mem_append.mpr (Or.inr (by simp [hi]))⟩
    | none =>
      constructor
      · rintro ⟨ids, hids, hi⟩
        have hd : [j] = ids := Option.some.inj hids
        rw [← hd] at hi
        exact Or.inr ⟨hss, by simpa using hi⟩
      · rintro (⟨ids, hids, hi⟩ | ⟨-, hi⟩)
        · rw [hss, hm] at hids
          simp at hids
        · exact ⟨[j], rfl, by simp [hi]⟩
  · rw [if_neg hss]
    constructor
    · rintro ⟨ids, hids, hi⟩
      exact Or.inl ⟨ids, hids, hi⟩
    · rintro (⟨ids, hids, hi⟩ | ⟨hc, -⟩)
      · exact ⟨ids, hids, hi⟩
      · exact absurd hc hss

theorem keysOf_bucketAdd (m : List (String × List Nat)) (s : String) (i : Nat) :
    keysOf (bucketAdd m s i) =
      if (alookup s m).isSome then keysOf m else keysOf m ++ [s] := by
  unfold bucketAdd
  by_cases h : (alookup s m).isSome
  · simp only [if_pos h]
    unfold keysOf
    rw [List.map_map]
    congr 1
    funext b
    by_cases hb : b.1 = s <;> simp [hb]
  · simp [if_neg h, keysOf_append, keysOf]

theorem keysOf_bucketAdd_nodup (m : List (String × List Nat)) (s : String) (i : Nat)
    (h : (keysOf m).Nodup) : (keysOf (bucketAdd m s i)).Nodup := by
  rw [keysOf_bucketAdd]
  by_cases hs : (alookup s m).isSome
  · simp [hs, h]
  · have hmem : s ∉ keysOf m := by
      rw [← alookup_isSome_iff_mem_keys]
      simpa using hs
    simp only [hs, if_false, Bool.false_eq_true]
    exact List.nodup_append.mpr ⟨h, List.nodup_singleton s,
      fun a ha hb => hmem (by simp at hb; rw [← hb]; exact ha)⟩

theorem reduced_foldl_buckets (t : Tokenizer) (l : List (String × Nat))
    (acc : List (String × List Nat) × List Nat) (s : String) (i : Nat) :
    inBucket (l.foldl (reduced_step t) acc).1 s i ↔
      inBucket acc.1 s i ∨
        ∃ tok, (tok, i) ∈ l ∧ tok ∉ t.special_tokens ∧
          t.convert_token_to_string tok = s ∧ s ≠ "" := by
  induction l generalizing acc with
  | nil => simp
  | cons p rest ih =>
    rw [List.foldl_cons, ih]
    unfold reduced_step
    by_cases hsp : p.1 ∈ t.special_tokens
    · simp only [if_pos hsp]
      constructor
      · rintro (h | ⟨tok, hmem, hc⟩)
        · exact Or.inl h
        · exact Or.inr ⟨tok, List.mem_cons_of_mem _ hmem, hc⟩
      · rintro (h | ⟨tok, hmem, hns, hc⟩)
        · exact Or.inl h
        · rcases List.mem_cons.mp hmem with heq | hmem2
          · have htok : tok = p.1 := congrArg Prod.fst heq
            exact absurd (by rw [htok]; exact hsp) hns
          · exact Or.inr ⟨tok, hmem2, hns, hc⟩
    · by_cases hemp : t.convert_token_to_string p.1 = ""
      · simp only [if_neg hsp, if_pos hemp]
        constructor
        · rintro (h | ⟨tok, hmem, hc⟩)
          · exact Or.inl h
          · exact Or.inr ⟨tok, List.mem_cons_of_mem _ hmem, hc⟩
        · rintro (h | ⟨tok, hmem, hns, hconv, hne⟩)
          · exact Or.inl h
          · rcases List.mem_cons.mp hmem with heq | hmem2
            · have htok : tok = p.1 := congrArg Prod.fst heq
              exfalso
              apply hne
              rw [← hconv, htok, hemp]
            · exact Or.inr ⟨tok, hmem2, hns, hconv, hne⟩
      · simp only [if_neg hsp, if_neg hemp]
        rw [inBucket_bucketAdd]
        constructor
        · rintro ((h | ⟨hs0, hij⟩) | ⟨tok, hmem, hc⟩)
          · exact Or.inl h
          · refine Or.inr ⟨p.1, ?_, hsp, hs0.symm, ?_⟩
            · rw [hij]
              exact List.mem_cons_self _ _
            · rw [hs0]
              exact hemp
          · exact Or.inr ⟨tok, List.mem_cons_of_mem _ hmem, hc⟩
        · rintro (h | ⟨tok, hmem, hns, hconv, hne⟩)
          · exact Or.inl (Or.inl h)
          · rcases List.mem_cons.mp hmem with heq | hmem2
            · have htok : tok = p.1 := congrArg Prod.fst heq
              have hi2 : i = p.2 := congrArg Prod.snd heq
              refine Or.inl (Or.inr ⟨?_, hi2⟩)
              rw [← hconv, htok]
            · exact Or.inr ⟨tok, hmem2, hns, hconv, hne⟩

theorem reduced_foldl_empty (t : Tokenizer) (l : List (String × Nat))
    (acc : List (String × List Nat) × List Nat) (i : Nat) :
    i ∈ (l.foldl (reduced_step t) acc).2 ↔
      i ∈ acc.2 ∨ ∃ tok, (tok, i) ∈ l ∧ tok ∉ t.special_tokens ∧
        t.convert_token_to_string tok = "" := by
  induction l generalizing acc with
  | nil => simp
  | cons p rest ih =>
    rw [List.foldl_cons, ih]
    unfold reduced_step
    by_cases hsp : p.1 ∈ t.special_tokens
    · simp only [if_pos hsp]
      constructor
      · rintro (h | ⟨tok, hmem, hc⟩)
        · exact Or.inl h
        · exact Or.inr ⟨tok, List.mem_cons_of_mem _ hmem, hc⟩
      · rintro (h | ⟨tok, hmem, hns, hc⟩)
        · exact Or.inl h
        · rcases List.mem_cons.mp hmem with heq | hmem2
          · have htok : tok = p.1 := congrArg Prod.fst heq
            exact absurd (by rw [htok]; exact hsp) hns
          · exact Or.inr ⟨tok, hmem2, hns, hc⟩
    · by_cases hemp : t.convert_token_to_string p.1 = ""
      · simp only [if_neg hsp, if_pos hemp, List.mem_append, List.mem_singleton]
        constructor
        · rintro ((h | h) | ⟨tok, hmem, hc⟩)
          · exact Or.inl h
          · refine Or.inr ⟨p.1, ?_, hsp, hemp⟩
            rw [h]
            exact List.mem_cons_self _ _
          · exact Or.inr ⟨tok, List.mem_cons_of_mem _ hmem, hc⟩
        · rintro (h | ⟨tok, hmem, hns, hconv⟩)
          · exact Or.inl (Or.inl h)
          · rcases List.mem_cons.mp hmem with heq | hmem2
            · have hi2 : i = p.2 := congrArg Prod.snd heq
              exact Or.inl (Or.inr hi2)
            · exact Or.inr ⟨tok, hmem2, hns, hconv⟩
      · simp only [if_neg hsp, if_neg hemp]
        constructor
        · rintro (h | ⟨tok, hmem, hc⟩)
          · exact Or.inl h
          · exact Or.inr ⟨tok, List.mem_cons_of_mem _ hmem, hc⟩
        · rintro (h | ⟨tok, hmem, hns, hconv⟩)
          · exact Or.inl h
          · rcases List.mem_cons.mp hmem with heq | hmem2
            · have htok : tok = p.1 := congrArg Prod.fst heq
              exfalso
              apply hemp
              rw [← htok]
              exact hconv
            · exact Or.inr ⟨tok, hmem2, hns, hconv⟩

theorem reduced_foldl_nodup (t : Tokenizer) (l : List (String × Nat))
    (acc : List (String × List Nat) × List Nat) (h : (keysOf acc.1).Nodup) :
    (keysOf ((l.foldl (reduced_step t) acc).1)).Nodup := by
  induction l generalizing acc with
  | nil => simpa
  | cons p rest ih =>
    rw [List.foldl_cons]
    apply ih
    unfold reduced_step
    by_cases hsp : p.1 ∈ t.special_tokens
    · simpa [hsp]
    · by_cases hemp : t.convert_token_to_string p.1 = ""
      · simpa [hsp, hemp]
      · simp only [if_neg hsp, if_neg hemp]
        exact keysOf_bucketAdd_nodup _ _ _ h

theorem snd_nodup_unique {l : List (String × Nat)} (h : (l.map Prod.snd).Nodup)
    {a b : String} {i : Nat} (ha : (a, i) ∈ l) (hb : (b, i) ∈ l) : a = b := by
  induction l with
  | nil => simp at ha
  | cons p rest ih =>
    simp only [List.map_cons, List.nodup_cons] at h
    rcases List.mem_cons.mp ha with hah | hat
    · rcases List.mem_cons.mp hb with hbh | hbt
      · have := hah.trans hbh.symm
        exact congrArg Prod.fst this
      · exfalso
        apply h.1
        have hpi : p.2 = i := (congrArg Prod.snd hah).symm
        rw [hpi]
        exact List.mem_map.mpr ⟨(b, i), hbt, rfl⟩
    · rcases List.mem_cons.mp hb with hbh | hbt
      · exfalso
        apply h.1
        have hpi : p.2 = i := (congrArg Prod.snd hbh).symm
        rw [hpi]
        exact List.mem_map.mpr ⟨(a, i), hat, rfl⟩
      · exact ih h.2 hat hbt

/-- C9: `reduced_vocabulary` excludes every special token; every non-special token id
with non-empty decoded string lands exactly in the bucket of its decoded string (ids
sharing a decoded string share one bucket, the bucket keys being distinct) and not in
`empty_token_ids`; every non-special token id decoding to the empty string lands in
`empty_token_ids` and in no bucket. Hypothesis: the raw vocabulary maps distinct tokens
to distinct ids. -/
theorem c9_reduced_vocabulary_buckets (t : Tokenizer)
    (hids : (t.vocabulary.map Prod.snd).Nodup) :
    ((keysOf (reduced_vocabulary t).1).Nodup)
    ∧ (∀ tok i, (tok, i) ∈ t.vocabulary → tok ∈ t.special_tokens →
        (∀ s, ¬ inBucket (reduced_vocabulary t).1 s i) ∧ i ∉ (reduced_vocabulary t).2)
    ∧ (∀ tok i, (tok, i) ∈ t.vocabulary → tok ∉ t.special_tokens →
        t.convert_token_to_string tok ≠ "" →
        inBucket (reduced_vocabulary t).1 (t.convert_token_to_string tok) i
        ∧ (∀ s, inBucket (reduced_vocabulary t).1 s i →
            s = t.convert_token_to_string tok)
        ∧ i ∉ (reduced_vocabulary t).2)
    ∧ (∀ tok i, (tok, i) ∈ t.vocabulary → tok ∉ t.special_tokens →
        t.convert_token_to_string tok = "" →
        i ∈ (reduced_vocabulary t).2 ∧ ∀ s, ¬ inBucket (reduced_vocabulary t).1 s i) := by
  have hbuckets : ∀ s i, inBucket (reduced_vocabulary t).1 s i ↔
      ∃ tok, (tok, i) ∈ t.vocabulary ∧ tok ∉ t.special_tokens ∧
        t.convert_token_to_string tok = s ∧ s ≠ "" := by
    intro s i
    unfold reduced_vocabulary
    rw [reduced_foldl_buckets]
    simp [inBucket]
  have hempty : ∀ i, i ∈ (reduced_vocabulary t).2 ↔
      ∃ tok, (tok, i) ∈ t.vocabulary ∧ tok ∉ t.special_tokens ∧
        t.convert_token_to_string tok = "" := by
    intro i
    unfold reduced_vocabulary
    rw [reduced_foldl_empty]
    simp
  refine ⟨?_, ?_, ?_, ?_⟩
  · unfold reduced_vocabulary
    exact reduced_foldl_nodup t t.vocabulary ([], []) (by simp [keysOf])
  · intro tok i hmem hsp
    constructor
    · intro s hs
      rw [hbuckets] at hs
      obtain ⟨tok2, hmem2, hns2, -⟩ := hs
      exact hns2 (by rw [snd_nodup_unique hids hmem2 hmem]; exact hsp)
    · intro hs
      rw [hempty] at hs
      obtain ⟨tok2, hmem2, hns2, -⟩ := hs
      exact hns2 (by rw [snd_nodup_unique hids hmem2 hmem]; exact hsp)
  · intro tok i hmem hns hne
    refine ⟨?_, ?_, ?_⟩
    · rw [hbuckets]
      exact ⟨tok, hmem, hns, rfl, hne⟩
    · intro s hs
      rw [hbuckets] at hs
      obtain ⟨tok2, hmem2, -, hconv2, -⟩ := hs
      rw [← hconv2, snd_nodup_unique hids hmem2 hmem]
    · intro hs
      rw [hempty] at hs
      obtain ⟨tok2, hmem2, -, hconv2⟩ := hs
      rw [snd_nodup_unique hids hmem2 hmem] at hconv2
      exact hne hconv2
  · intro tok i hmem hns hemp
    constructor
    · rw [hempty]
      exact ⟨tok, hmem, hns, hemp⟩
    · intro s hs
      rw [hbuckets] at hs
      obtain ⟨tok2, hmem2, -, hconv2, hsne⟩ := hs
      rw [snd_nodup_unique hids hmem2 hmem] at hconv2
      exact hsne (by rw [← hconv2, hemp])

/-- Witness for C9 at a three-entry tokenizer: an ordinary token, a special token, and
a token decoding to the empty string. -/
theorem c9_reduced_vocabulary_buckets_witness :
    ((tokEx.vocabulary.map Prod.snd).Nodup)
    ∧ inBucket (reduced_vocabulary tokEx).1 "a" 1
    ∧ (3 : Nat) ∈ (reduced_vocabulary tokEx).2
    ∧ (2 : Nat) ∉ (reduced_vocabulary tokEx).2 :=
  ⟨by decide,
   ((c9_reduced_vocabulary_buckets tokEx (by decide)).2.2.1 "a" 1 (by decide)
      (by decide) (by decide)).1,
   ((c9_reduced_vocabulary_buckets tokEx (by decide)).2.2.2 "" 3 (by decide)
      (by decide) (by decide)).1,
   ((c9_reduced_vocabulary_buckets tokEx (by decide)).2.1 "<eos>" 2 (by decide)
      (by decide)).2⟩

/-! ## C1: final states and `get_next_state` -/

/-- C1 counterexample: over the `a+` DFA with the one-token vocabulary, state 1 is a
final DFA state, the published token index maps token 1 from state 1 back to state 1,
yet `get_next_state(1, 1)` returns the sentinel `-1` — final states are cut off. -/
theorem c1_counterexample : ¬ C1ClaimStatement := by
  intro h
  have hx := h infoAplus vocabA 1 1 1 [(1, 1), (0, -1)]
    (by decide) (by decide) (by decide) (by rfl) (by rfl)
  have hy : (mkLazyGuide infoAplus vocabA).get_next_state 1 1 = Except.ok (-1) := by rfl
  rw [hx] at hy
  simp at hy

/-- C1 (amended): `get_next_state` follows the published token index only from
non-final states of the DFA state list; from every state in `final_states` (the DFA
finals plus `-1`) it returns `-1` for every token, final states being treated as
terminal. -/
theorem c1_nonfinal_transitions_follow_index (info : FSMInfo) (vocab : TokenVocabulary)
    (q : Int) (t : Nat) :
    (∀ (m : List (Nat × Int)) (q2 : Int),
        q ∉ (mkLazyGuide info vocab).final_states →
        q ∈ (mkLazyGuide info vocab).states →
        t ≠ (mkLazyGuide info vocab).eos_token_id →
        alookup q (mkLazyGuide info vocab).states_to_token_maps = some m →
        alookup t m = some q2 →
        (mkLazyGuide info vocab).get_next_state q t = Except.ok q2)
    ∧ (q ∈ (mkLazyGuide info vocab).final_states →
        (mkLazyGuide info vocab).get_next_state q t = Except.ok (-1)) := by
  constructor
  · intro m q2 hnf hst hne hm ht
    unfold LazyGuide.get_next_state
    rw [if_neg hnf, if_neg (by simp [hne, hst]), hm]
    simp [ht]
  · intro hf
    unfold LazyGuide.get_next_state
    rw [if_pos hf]

/-- Witness for the amended C1 at the non-final initial state of the `a+` build. -/
theorem c1_nonfinal_transitions_follow_index_witness :
    (0 : Int) ∉ (mkLazyGuide infoAplus vocabA).final_states
    ∧ (mkLazyGuide infoAplus vocabA).get_next_state 0 1 = Except.ok 1 :=
  ⟨by decide,
   (c1_nonfinal_transitions_follow_index infoAplus vocabA 0 1).1 [(1, 1)] 1
     (by decide) (by decide) (by decide) (by rfl) (by rfl)⟩

/-! ## C2: `get_next_instruction` -/

theorem alookup_fetchMasks (maps : List (Int × List (Nat × Int))) (s : Int) :
    alookup s (fetchMasks maps) = (alookup s maps).map (fun m => m.map Prod.fst) := by
  induction maps with
  | nil => simp [fetchMasks]
  | cons p rest ih =>
    simp only [fetchMasks, List.map_cons, alookup_cons]
    by_cases h : p.1 = s
    · simp [h]
    · simp only [h, if_false]
      simpa [fetchMasks] using ih

/-- C2: `get_next_instruction` returns `Write([eos_token_id])` exactly on the final
states together with the sentinel `-1` (which construction places among the finals),
and on every other state whose token map is published it returns `Generate` over the
keys of that state's map — never `Write`. -/
theorem c2_instruction_write_iff_final (g : LazyGuide)
    (hmask : g.states_to_token_masks = fetchMasks g.states_to_token_maps)
    (hneg : (-1 : Int) ∈ g.final_states) :
    (∀ s : Int, s ∈ g.final_states ∨ s = -1 →
        g.get_next_instruction s = Instruction.write [g.eos_token_id])
    ∧ (∀ (s : Int) (m : List (Nat × Int)), s ∉ g.final_states →
        alookup s g.states_to_token_maps = some m →
        g.get_next_instruction s = Instruction.generate (m.map Prod.fst)) := by
  constructor
  · intro s hs
    have hsf : s ∈ g.final_states := by
      rcases hs with h | h
      · exact h
      · rw [h]
        exact hneg
    unfold LazyGuide.get_next_instruction
    rw [if_pos hsf]
  · intro s m hnf hm
    unfold LazyGuide.get_next_instruction
    rw [if_neg hnf, hmask, alookup_fetchMasks, hm]
    simp

/-- Witness for C2 at the `a+` build: final state 1 gets `Write([eos])`, non-final
state 0 gets `Generate` over its map keys. -/
theorem c2_instruction_write_iff_final_witness :
    ((mkLazyGuide infoAplus vocabA).states_to_token_masks
        = fetchMasks (mkLazyGuide infoAplus vocabA).states_to_token_maps)
    ∧ (mkLazyGuide infoAplus vocabA).get_next_instruction 1
        = Instruction.write [(mkLazyGuide infoAplus vocabA).eos_token_id]
    ∧ (mkLazyGuide infoAplus vocabA).get_next_instruction 0
        = Instruction.generate [1] :=
  ⟨rfl,
   (c2_instruction_write_iff_final (mkLazyGuide infoAplus vocabA) rfl (by decide)).1 1
     (Or.inl (by decide)),
   by
     have h := (c2_instruction_write_iff_final (mkLazyGuide infoAplus vocabA) rfl
       (by decide)).2 0 [(1, 1)] (by decide) (by rfl)
     simpa using h⟩

/-! ## C3: `RegexGuide.__init__` -/

/-- C3: construction never returns normally: `create_fsm_index_end_to_end` returns the
pair `(lazy_fsm_index, finals)` while `RegexGuide.__init__` unpacks three values from
it, so `RegexGuide(regex, vocab)` raises `ValueError` for every well-formed input
instead of yielding a usable handle. -/
theorem c3_regexguide_init_raises (info : FSMInfo) (vocab : TokenVocabulary) :
    RegexGuide.init info vocab
      = Except.error "ValueError: not enough values to unpack" := rfl

/-! ## C4: out-of-range lookups -/

/-- C4: out-of-range lookups are not all non-raising: with the `a+` guide state,
`RegexGuide.get_next_state` on a known state raises `TypeError` (the
`states_to_token_maps` property has no return statement, so it evaluates to `None`),
and `VLLMRegexGuide.get_next_state` on an unknown non-final state raises `KeyError`;
only the unknown-state path of `RegexGuide` and the unknown-token path of
`VLLMRegexGuide` return `-1` as claimed. -/
theorem c4_out_of_range_lookup_raises :
    RegexGuideData.get_next_state regexGuideEx 0 5
        = Except.error "TypeError: NoneType object is not subscriptable"
    ∧ RegexGuideData.get_next_state regexGuideEx 99 5 = Except.ok (-1)
    ∧ VLLMGuide.get_next_state vllmGuideEx 7 1 = Except.error "KeyError"
    ∧ VLLMGuide.get_next_state vllmGuideEx 0 9 = Except.ok (-1) :=
  ⟨rfl, rfl, rfl, rfl⟩

/-! ## C6: `LazyVLLMRegexGuide` pickling -/

/-- C6: `__getstate__` always strips the fsm handle to `None` and carries every other
field, the regex string and tokenizer included; but `__setstate__` cannot rebuild the
index: it unpacks two values `(self.fsm, self.empty_token_ids)` from
`create_fsm_index_tokenizer`, which returns the single non-iterable lazy index handle,
so restoring any pickled guide with a non-empty regex and a tokenizer raises
`TypeError` instead of reconstructing the index. -/
theorem c6_getstate_strips_fsm_setstate_raises (g : LazyGuideFull) :
    (g.getstate = { g with fsm := none }
      ∧ g.getstate.regex_string = g.regex_string
      ∧ g.getstate.tokenizer = g.tokenizer)
    ∧ (∀ (st : LazyGuideFull) (vocab : TokenVocabulary),
        st.tokenizer = some vocab → st.regex_string ≠ "" →
        st.setstate = Except.error "TypeError: cannot unpack non-iterable object") := by
  refine ⟨⟨rfl, rfl, rfl⟩, ?_⟩
  intro st vocab htok hre
  obtain ⟨rs, tk, eos, fin, sts, maps, masks, f, bf⟩ := st
  simp only at htok hre
  subst htok
  simp only [LazyGuideFull.setstate]
  rw [if_neg hre]
  rfl

/-- Witness for C6 at the pickled `a+` guide. -/
theorem c6_getstate_strips_fsm_setstate_raises_witness :
    lazyFullEx.getstate = { lazyFullEx with fsm := none }
    ∧ lazyFullEx.setstate
        = Except.error "TypeError: cannot unpack non-iterable object" :=
  ⟨(c6_getstate_strips_fsm_setstate_raises lazyFullEx).1.1,
   (c6_getstate_strips_fsm_setstate_raises lazyFullEx).2 lazyFullEx vocabA rfl
     (by decide)⟩

end FasterOutlines
